import Mathlib

/-!
Shallow embedding of the order-data splitting pipeline
(`cmd/bepensa/main.go` of `kpassapk/seda-orderdata-go`).

The embedding models `splitFile` as a state-passing loop over a stream of
CSV read events, and the `main` orchestration loop over files and parts.
Object-store reads are modelled by the event stream; object-store writes
and closes are modelled as operations that consult a fault schedule
(`destOk`), one Boolean per destination operation, so that
destination-write and close failures can be expressed.  Go's
`strconv.ParseFloat` is modelled on its plain decimal subset with exact
rational values; all quantity values appearing in the development are far
from any binary-rounding boundary of the comparison against `0.0001`.
-/

namespace SedaOrderData

/-- Constant `OutBucket` from main.go: destination bucket of part files. -/
def OutBucket : String := "cmrc-integrations"

/-- Constant `MaxFileSize = 10 * 1 << 20` from main.go (Go precedence:
`(10 * 1) << 20`), the part-size threshold in bytes. -/
def MaxFileSize : Nat := (10 * 1) <<< 20

/-- The `File` struct from main.go: a bucket plus an object name. -/
structure File where
  bucket : String
  name : String
deriving DecidableEq, Repr

/-- Value of a decimal digit character, `none` for a non-digit. -/
def digVal (c : Char) : Option Nat :=
  if c.isDigit then some (c.toNat - 48) else none

/-- Value of a digit string read left to right; `none` if any character is
not a digit.  The empty list yields `some 0`; emptiness is checked by the
callers. -/
def natOfDigits (cs : List Char) : Option Nat :=
  cs.foldl
    (fun acc c =>
      match acc, digVal c with
      | some n, some d => some (n * 10 + d)
      | _, _ => none)
    (some 0)

/-- An exact decimal number: the value `num / 10 ^ exp`.  This represents
the result of parsing a decimal quantity field exactly, in a form whose
arithmetic reduces in the kernel. -/
structure Dec where
  num : Int
  exp : Nat
deriving DecidableEq, Repr

/-- The rational value of an exact decimal. -/
def Dec.toQ (d : Dec) : ℚ :=
  (d.num : ℚ) / (10 : ℚ) ^ d.exp

/-- Model of Go `strconv.ParseFloat` on plain decimal literals
(optional sign, integer part, optional fractional part), returning the
exact decimal value.  Exponent, hex, `Inf` and `NaN` forms are outside
the model and map to `none` (a parse error). -/
def parseFloatD (s : String) : Option Dec :=
  let core : List Char → Option Dec := fun cs =>
    let ip := cs.takeWhile (fun c => c ≠ '.')
    match cs.dropWhile (fun c => c ≠ '.') with
    | [] =>
        if ip.isEmpty then none
        else (natOfDigits ip).map (fun n => ⟨(n : Int), 0⟩)
    | '.' :: fp =>
        if fp.contains '.' then none
        else if ip.isEmpty && fp.isEmpty then none
        else
          match natOfDigits ip, natOfDigits fp with
          | some n, some m => some ⟨((n * 10 ^ fp.length + m : Nat) : Int), fp.length⟩
          | _, _ => none
    | _ => none
  match s.data with
  | [] => none
  | '-' :: cs => (core cs).map (fun d => ⟨-d.num, d.exp⟩)
  | '+' :: cs => core cs
  | cs => core cs

/-- The epsilon `0.0001` of the inclusion test in main.go, as an exact
rational. -/
def epsQ : ℚ := 1 / 10000

/-- The comparison `row5 - 0. > 0.0001` of main.go line 164 on an exact
decimal: decides `d.toQ - 0 > epsQ` by cross-multiplication (see
`gtEps_eq_toQ`). -/
def gtEps (d : Dec) : Bool :=
  decide (d.num * 10000 > ((10 ^ d.exp : Nat) : Int))

/-- The cross-multiplied comparison `gtEps` decides exactly the rational
comparison `d.toQ - 0 > epsQ` that models `row5 - 0. > 0.0001`. -/
theorem gtEps_eq_toQ (d : Dec) : gtEps d = decide (d.toQ - 0 > epsQ) := by
  have hD : (0 : ℚ) < (10 : ℚ) ^ d.exp := by positivity
  simp only [gtEps, Dec.toQ, epsQ, decide_eq_decide, sub_zero, gt_iff_lt]
  rw [div_lt_div_iff₀ (by norm_num) hD, one_mul]
  constructor
  · intro h
    exact_mod_cast h
  · intro h
    exact_mod_cast h

/-- Byte size of one character under UTF-8, as Go counts `[]byte(s)`. -/
def csize (c : Char) : Nat :=
  if c.toNat < 128 then 1
  else if c.toNat < 2048 then 2
  else if c.toNat < 65536 then 3
  else 4

/-- Model of Go `len([]byte(s))`: the UTF-8 byte length of a string. -/
def goLen (s : String) : Nat :=
  s.data.foldl (fun n c => n + csize c) 0

/-- Size contribution of one included record, from main.go line 173:
`len([]byte(strings.Join(record, ","))) + len([]byte("\n"))`. -/
def rowBytes (record : List String) : Nat :=
  goLen (String.intercalate "," record) + 1

/-- The inclusion test of main.go lines 159–164 applied to a whole record:
parse field 5 and compare `row5 - 0. > 0.0001`.  Out-of-range access and
parse failure count as `false` here; in the split loop those cases divert
to a panic and an error return respectively before this value matters. -/
def includeRec (record : List String) : Bool :=
  match record[5]? with
  | some s =>
      match parseFloatD s with
      | some d => gtEps d
      | none => false
  | none => false

/-- Decimal rendering of `i` zero-padded to width 6, as `fmt.Sprintf`
with format `%06d` produces for non-negative arguments. -/
def pad6 (i : Nat) : String :=
  let s := toString i
  String.mk (List.replicate (6 - s.length) '0') ++ s

/-- Part object name from main.go line 142:
`fmt.Sprintf(file.Name+"_part_%06d.csv", i)`. -/
def partFileName (srcName : String) (i : Nat) : String :=
  srcName ++ "_part_" ++ pad6 i ++ ".csv"

/-- A destination part object: its name and the CSV rows written into it,
in order. -/
structure Part where
  name : String
  rows : List (List String)
deriving DecidableEq, Repr

/-- The `FileRef` recorded for a closed part, from main.go line 136:
`File{OutBucket, wc.Name}`. -/
def partRef (p : Part) : File :=
  ⟨OutBucket, p.name⟩

/-- One event produced by `reader.Read()` inside the loop of `splitFile`:
either a successfully parsed CSV record, or a read error.  End of input
(`io.EOF`) is the end of the event list. -/
inductive ReadEvent where
  | row (record : List String)
  | fail (msg : String)
deriving DecidableEq, Repr

/-- The error taxonomy of `splitFile`'s return paths. -/
inductive SplitError where
  | readErr (msg : String)
  | parseErr (field : String)
  | writeErr
  | closeErr
deriving DecidableEq, Repr

/-- Whether an error came from `reader.Read()`. -/
def SplitError.isRead : SplitError → Bool
  | .readErr _ => true
  | _ => false

/-- Whether an error came from `wc.Close()`. -/
def SplitError.isClose : SplitError → Bool
  | .closeErr => true
  | _ => false

/-- The mutable state of `splitFile`'s loop: the destination-operation
counter `k` (index into the fault schedule), the accumulated `files`
return value, the contents of parts closed so far, the currently open
part (`wc`/`writer` plus what has been written through them), the
`bytesWritten` accumulator, and whether the source reader is open. -/
structure SplitState where
  k : Nat
  files : List File
  closed : List Part
  cur : Option Part
  bytesWritten : Nat
  rOpen : Bool
deriving DecidableEq, Repr

/-- State at entry of the loop: no parts, no open writer, zero bytes,
source reader open. -/
def initState : SplitState :=
  ⟨0, [], [], none, 0, true⟩

/-- Configuration of one `splitFile` call: the source object name (used
for part naming), the part-size threshold (the constant `MaxFileSize` in
the program, a parameter of the split contract), and the fault schedule
for destination operations (header writes, record writes, closes), one
Boolean per operation in execution order. -/
structure SplitCfg where
  fileName : String
  maxPartBytes : Nat
  destOk : Nat → Bool

/-- The rollover condition of main.go line 132:
`wc == nil || bytesWritten > MaxFileSize`. -/
def rollCond (cfg : SplitCfg) (st : SplitState) : Bool :=
  st.cur.isNone || decide (st.bytesWritten > cfg.maxPartBytes)

/-- Outcome of one loop iteration.  `next` continues the loop, `halt` is
an error `return` (carrying the returned list, the error, and the state
left behind), `crash` is a Go panic. -/
inductive StepRes where
  | next (st : SplitState)
  | halt (ret : List File) (e : SplitError) (fin : SplitState)
  | crash (fin : SplitState)
deriving DecidableEq, Repr

/-- Lines 142–156 of main.go: create the new part object, open its
writer, write the header row into it, and reset `bytesWritten` to zero.
A header-write fault returns `files, err` with the new writer left open. -/
def openPart (cfg : SplitCfg) (header : List String) (st : SplitState)
    (i : Nat) : Except (List File × SplitError × SplitState) SplitState :=
  let name := partFileName cfg.fileName i
  let st1 : SplitState := { st with cur := some ⟨name, []⟩ }
  if cfg.destOk st1.k then
    .ok { st1 with
            k := st1.k + 1
            cur := some ⟨name, [header]⟩
            bytesWritten := 0 }
  else
    .error (st1.files, .writeErr, { st1 with k := st1.k + 1 })

/-- Lines 131–157 of main.go: if the rollover condition holds, close the
current part (recording its FileRef on success, returning `files, err` on
a close fault) and open a new part via `openPart`; otherwise leave the
state unchanged. -/
def rollover (cfg : SplitCfg) (header : List String) (st : SplitState)
    (i : Nat) : Except (List File × SplitError × SplitState) SplitState :=
  if rollCond cfg st then
    match st.cur with
    | some p =>
        if cfg.destOk st.k then
          openPart cfg header
            { st with
                k := st.k + 1
                files := st.files ++ [partRef p]
                closed := st.closed ++ [p]
                cur := none } i
        else
          .error (st.files, .closeErr, { st with k := st.k + 1, cur := none })
    | none => openPart cfg header st i
  else
    .ok st

/-- Append a data row to the currently open part's contents. -/
def appendCur (cur : Option Part) (r : List String) : Option Part :=
  match cur with
  | some p => some ⟨p.name, p.rows ++ [r]⟩
  | none => none

/-- One iteration of the loop body of main.go lines 131–174, given a
successfully read `record`: rollover, the unguarded `record[5]` access
(a crash when the record has fewer than 6 fields), the float parse, the
guarded record write, and the guarded size accounting. -/
def processRecord (cfg : SplitCfg) (header : List String) (st : SplitState)
    (i : Nat) (record : List String) : StepRes :=
  match rollover cfg header st i with
  | .error (ret, e, fin) => .halt ret e fin
  | .ok st1 =>
      match record[5]? with
      | none => .crash st1
      | some s =>
          match parseFloatD s with
          | none => .halt st1.files (.parseErr s) st1
          | some q =>
              if gtEps q then
                if cfg.destOk st1.k then
                  .next { st1 with
                            k := st1.k + 1
                            cur := appendCur st1.cur record
                            bytesWritten := st1.bytesWritten + rowBytes record }
                else
                  .halt st1.files .writeErr { st1 with k := st1.k + 1 }
              else
                .next st1

/-- Result of a `splitFile` call: the returned FileRef list together with
the final state (for the normal and the error returns), or a panic. -/
inductive SplitResult where
  | done (ret : List File) (fin : SplitState)
  | failed (ret : List File) (e : SplitError) (fin : SplitState)
  | panicked (fin : SplitState)
deriving DecidableEq, Repr

/-- The loop of main.go lines 120–180, after the header has been read.
End of input closes the currently open part without recording its
FileRef (lines 177–179 call `wc.Close()` but never append to `files`);
a read error returns `nil, err` (line 128); a record is handed to
`processRecord`. -/
def splitLoop (cfg : SplitCfg) (header : List String) :
    List ReadEvent → Nat → SplitState → SplitResult
  | [], _, st =>
      match st.cur with
      | some p =>
          if cfg.destOk st.k then
            .done st.files
              { st with k := st.k + 1, closed := st.closed ++ [p], cur := none }
          else
            .done st.files { st with k := st.k + 1, cur := none }
      | none => .done st.files st
  | .fail msg :: _, _, st => .failed [] (.readErr msg) st
  | .row r :: rest, i, st =>
      match processRecord cfg header st i r with
      | .next st1 => splitLoop cfg header rest (i + 1) st1
      | .halt ret e fin => .failed ret e fin
      | .crash fin => .panicked fin

/-- The deferred `r.Close()` of main.go line 107: runs on every exit
path, the panic path included. -/
def releaseReader : SplitResult → SplitResult
  | .done r f => .done r { f with rOpen := false }
  | .failed r e f => .failed r e { f with rOpen := false }
  | .panicked f => .panicked { f with rOpen := false }

/-- The `splitFile` function of main.go lines 93–181, over an input
stream whose first event is the header read (lines 111–114): a failure
or end of input there returns `nil, err` before the loop starts. -/
def splitFile (cfg : SplitCfg) (input : List ReadEvent) : SplitResult :=
  releaseReader <|
    match input with
    | [] => .failed [] (.readErr "EOF") initState
    | .fail msg :: _ => .failed [] (.readErr msg) initState
    | .row header :: rest => splitLoop cfg header rest 0 initState

/-- Returned FileRef list of a result (`nil` for a panic, which returns
nothing). -/
def SplitResult.ret : SplitResult → List File
  | .done r _ => r
  | .failed r _ _ => r
  | .panicked _ => []

/-- Final state of a result. -/
def SplitResult.fin : SplitResult → SplitState
  | .done _ f => f
  | .failed _ _ f => f
  | .panicked f => f

/-- The error of a result, if any. -/
def SplitResult.errOf : SplitResult → Option SplitError
  | .done _ _ => none
  | .failed _ e _ => some e
  | .panicked _ => none

/-- Whether the result is a Go panic. -/
def SplitResult.isPanic : SplitResult → Bool
  | .panicked _ => true
  | _ => false

/-- The record events of an input stream, in order (what the source's
data rows are, ignoring read errors). -/
def recordsOf (evs : List ReadEvent) : List (List String) :=
  evs.filterMap (fun e =>
    match e with
    | .row r => some r
    | .fail _ => none)

/-- Data rows (everything after the header row) held by the parts of a
state: closed parts first, then the currently open part. -/
def stateDataRows (st : SplitState) : List (List String) :=
  (st.closed.map (fun p => p.rows.drop 1)).flatten ++
    (match st.cur with
     | some p => p.rows.drop 1
     | none => [])

/-- All rows held by the parts of a state, headers included. -/
def stateRows (st : SplitState) : List (List String) :=
  (st.closed.map (fun p => p.rows)).flatten ++
    (match st.cur with
     | some p => p.rows
     | none => [])

/-- On a fault-free destination, `rollover` always succeeds, and its
effect is: on rollover with an open part, close and record that part and
open a fresh one holding the header; on rollover with no open part, just
open the fresh one; otherwise no change. -/
theorem rollover_eq_of_ok (cfg : SplitCfg) (header : List String)
    (st : SplitState) (i : Nat) (hok : ∀ n, cfg.destOk n = true) :
    rollover cfg header st i =
      (if rollCond cfg st then
        match st.cur with
        | some p =>
            .ok { st with
                    k := st.k + 2
                    files := st.files ++ [partRef p]
                    closed := st.closed ++ [p]
                    cur := some ⟨partFileName cfg.fileName i, [header]⟩
                    bytesWritten := 0 }
        | none =>
            .ok { st with
                    k := st.k + 1
                    cur := some ⟨partFileName cfg.fileName i, [header]⟩
                    bytesWritten := 0 }
      else .ok st) := by
  unfold rollover openPart
  by_cases hroll : rollCond cfg st
  · simp only [hroll, if_true]
    cases hc : st.cur with
    | some p => simp [hok]
    | none => simp [hok]
  · simp [hroll]

/-- One fault-free loop iteration extends the data rows held in parts by
exactly the current record when it passes the inclusion test, and by
nothing when it does not; an open part never holds an empty row list. -/
theorem processRecord_next_dataRows {cfg : SplitCfg} {header : List String}
    {st : SplitState} {i : Nat} {r : List String} {st1 : SplitState}
    (hok : ∀ n, cfg.destOk n = true)
    (hcur : ∀ p, st.cur = some p → p.rows ≠ [])
    (h : processRecord cfg header st i r = .next st1) :
    stateDataRows st1 = stateDataRows st ++ (if includeRec r then [r] else []) ∧
    (∀ p, st1.cur = some p → p.rows ≠ []) := by
  unfold processRecord at h
  rw [rollover_eq_of_ok cfg header st i hok] at h
  by_cases hroll : rollCond cfg st
  · cases hc : st.cur with
    | some p =>
        simp only [hroll, if_true, hc] at h
        cases hg : r[5]? with
        | none => simp [hg] at h
        | some s =>
          cases hp : parseFloatD s with
          | none => simp [hg, hp] at h
          | some q =>
            by_cases hq : gtEps q
            · simp only [hg, hp, hq, if_true, hok, appendCur] at h
              cases h
              refine ⟨?_, ?_⟩
              · simp [stateDataRows, hc, includeRec, hg, hp, hq,
                  List.map_append, List.flatten_append, List.append_assoc]
              · intro p' hp'
                simp at hp'
                simp [← hp']
            · simp only [hg, hp, hq, if_false, Bool.false_eq_true] at h
              cases h
              refine ⟨?_, ?_⟩
              · simp [stateDataRows, hc, includeRec, hg, hp, hq,
                  List.map_append, List.flatten_append, List.append_assoc]
              · intro p' hp'
                simp at hp'
                simp [← hp']
    | none =>
        simp only [hroll, if_true, hc] at h
        cases hg : r[5]? with
        | none => simp [hg] at h
        | some s =>
          cases hp : parseFloatD s with
          | none => simp [hg, hp] at h
          | some q =>
            by_cases hq : gtEps q
            · simp only [hg, hp, hq, if_true, hok, appendCur] at h
              cases h
              refine ⟨?_, ?_⟩
              · simp [stateDataRows, hc, includeRec, hg, hp, hq]
              · intro p' hp'
                simp at hp'
                simp [← hp']
            · simp only [hg, hp, hq, if_false, Bool.false_eq_true] at h
              cases h
              refine ⟨?_, ?_⟩
              · simp [stateDataRows, hc, includeRec, hg, hp, hq]
              · intro p' hp'
                simp at hp'
                simp [← hp']
  · cases hc : st.cur with
    | none => simp [rollCond, hc] at hroll
    | some p =>
        simp only [hroll, if_false, Bool.false_eq_true] at h
        cases hg : r[5]? with
        | none => simp [hg] at h
        | some s =>
          cases hp : parseFloatD s with
          | none => simp [hg, hp] at h
          | some q =>
            by_cases hq : gtEps q
            · simp only [hg, hp, hq, if_true, hok, appendCur, hc] at h
              cases h
              obtain ⟨x, xs, hxs⟩ :
                  ∃ x xs, p.rows = x :: xs := by
                cases hr : p.rows with
                | nil => exact absurd hr (hcur p hc)
                | cons x xs => exact ⟨x, xs, rfl⟩
              refine ⟨?_, ?_⟩
              · simp [stateDataRows, hc, includeRec, hg, hp, hq, hxs]
              · intro p' hp'
                simp at hp'
                simp [← hp', hxs]
            · simp only [hg, hp, hq, if_false, Bool.false_eq_true] at h
              cases h
              refine ⟨?_, ?_⟩
              · simp [stateDataRows, hc, includeRec, hg, hp, hq]
              · exact hcur

/-- Loop invariant behind the split/filter partition property: on a
fault-free destination, a loop that runs to end of input leaves in its
closed parts exactly the data rows it started with plus the included
records of the remaining events, in order. -/
theorem splitLoop_done_dataRows {cfg : SplitCfg} {header : List String}
    (hok : ∀ n, cfg.destOk n = true) :
    ∀ (evs : List ReadEvent) (i : Nat) (st : SplitState) (ret : List File)
      (fin : SplitState),
      (∀ p, st.cur = some p → p.rows ≠ []) →
      splitLoop cfg header evs i st = .done ret fin →
      (fin.closed.map (fun p => p.rows.drop 1)).flatten =
        stateDataRows st ++ (recordsOf evs).filter (fun r => includeRec r)
  | [], i, st, ret, fin, hcur, h => by
      unfold splitLoop at h
      cases hc : st.cur with
      | some p =>
          simp only [hc, hok, if_true] at h
          cases h
          simp [stateDataRows, hc, recordsOf, List.map_append,
            List.flatten_append]
      | none =>
          simp only [hc] at h
          cases h
          simp [stateDataRows, hc, recordsOf]
  | .fail msg :: rest, i, st, ret, fin, hcur, h => by
      simp [splitLoop] at h
  | .row r :: rest, i, st, ret, fin, hcur, h => by
      unfold splitLoop at h
      cases hpr : processRecord cfg header st i r with
      | next st1 =>
          simp only [hpr] at h
          obtain ⟨h1, h2⟩ := processRecord_next_dataRows hok hcur hpr
          have hrec :=
            splitLoop_done_dataRows hok rest (i + 1) st1 ret fin h2 h
          rw [hrec, h1]
          by_cases hinc : includeRec r
          · simp [recordsOf, hinc, List.append_assoc]
          · simp [recordsOf, hinc]
      | halt ret1 e fin1 => simp [hpr] at h
      | crash fin1 => simp [hpr] at h

/-- C2: on a fault-free destination, when `splitFile` runs to completion
the data rows of the produced parts, concatenated in part order with each
part's header row excluded, are exactly the source's records that pass
the inclusion filter, in original order, with no duplication or loss. -/
theorem C2_parts_concat_filtered {cfg : SplitCfg} {header : List String}
    {evs : List ReadEvent} {ret : List File} {fin : SplitState}
    (hok : ∀ n, cfg.destOk n = true)
    (h : splitFile cfg (.row header :: evs) = .done ret fin) :
    (fin.closed.map (fun p => p.rows.drop 1)).flatten =
      (recordsOf evs).filter (fun r => includeRec r) := by
  have h' : releaseReader (splitLoop cfg header evs 0 initState) =
      .done ret fin := h
  cases hres : splitLoop cfg header evs 0 initState with
  | done r f =>
      rw [hres] at h'
      simp only [releaseReader, SplitResult.done.injEq] at h'
      obtain ⟨hret, hfin⟩ := h'
      subst hfin
      have hcur : ∀ p, initState.cur = some p → p.rows ≠ [] := by
        intro p hp
        simp [initState] at hp
      have := splitLoop_done_dataRows hok evs 0 initState r f hcur hres
      simpa [stateDataRows, initState] using this
  | failed r e f =>
      rw [hres] at h'
      simp [releaseReader] at h'
  | panicked f =>
      rw [hres] at h'
      simp [releaseReader] at h'

/-- Witness for C2 at a concrete input: one included data row ends up as
the single data row of the single produced part. -/
theorem C2_parts_concat_filtered_witness :
    (splitFile ⟨"f.csv", 100, fun _ => true⟩
        [.row ["a", "b", "c", "d", "e", "f"],
         .row ["x", "", "", "", "", "1"]] =
      .done []
        ⟨3, [],
         [⟨"f.csv_part_000000.csv",
           [["a", "b", "c", "d", "e", "f"], ["x", "", "", "", "", "1"]]⟩],
         none, 8, false⟩) ∧
    (([(⟨"f.csv_part_000000.csv",
          [["a", "b", "c", "d", "e", "f"], ["x", "", "", "", "", "1"]]⟩ :
            Part)].map (fun p => p.rows.drop 1)).flatten =
      (recordsOf [.row ["x", "", "", "", "", "1"]]).filter
        (fun r => includeRec r)) :=
  ⟨by decide,
    @C2_parts_concat_filtered ⟨"f.csv", 100, fun _ => true⟩
      ["a", "b", "c", "d", "e", "f"] [.row ["x", "", "", "", "", "1"]] []
      ⟨3, [],
       [⟨"f.csv_part_000000.csv",
         [["a", "b", "c", "d", "e", "f"], ["x", "", "", "", "", "1"]]⟩],
       none, 8, false⟩
      (fun _ => rfl) (by decide)⟩

/-- Releasing the source reader does not change which parts are closed. -/
theorem releaseReader_fin_closed (r : SplitResult) :
    (releaseReader r).fin.closed = r.fin.closed := by
  cases r <;> rfl

/-- Releasing the source reader does not change the open part. -/
theorem releaseReader_fin_cur (r : SplitResult) :
    (releaseReader r).fin.cur = r.fin.cur := by
  cases r <;> rfl

/-- Releasing the source reader does not change the recorded FileRefs. -/
theorem releaseReader_fin_files (r : SplitResult) :
    (releaseReader r).fin.files = r.fin.files := by
  cases r <;> rfl

/-- Invariant: every closed part and the open part (if one exists) start
with the header row. -/
def headerInv (header : List String) (st : SplitState) : Prop :=
  (∀ p ∈ st.closed, p.rows.head? = some header) ∧
  (∀ p, st.cur = some p → p.rows.head? = some header)

/-- Explicit description of every outcome of `rollover`, for an
arbitrary fault schedule. -/
theorem rollover_eq (cfg : SplitCfg) (header : List String)
    (st : SplitState) (i : Nat) :
    rollover cfg header st i =
      (if rollCond cfg st then
        match st.cur with
        | some p =>
            if cfg.destOk st.k then
              (if cfg.destOk (st.k + 1) then
                .ok { st with
                        k := st.k + 2
                        files := st.files ++ [partRef p]
                        closed := st.closed ++ [p]
                        cur := some ⟨partFileName cfg.fileName i, [header]⟩
                        bytesWritten := 0 }
              else
                .error (st.files ++ [partRef p], .writeErr,
                  { st with
                      k := st.k + 2
                      files := st.files ++ [partRef p]
                      closed := st.closed ++ [p]
                      cur := some ⟨partFileName cfg.fileName i, []⟩ }))
            else
              .error (st.files, .closeErr, { st with k := st.k + 1, cur := none })
        | none =>
            if cfg.destOk st.k then
              .ok { st with
                      k := st.k + 1
                      cur := some ⟨partFileName cfg.fileName i, [header]⟩
                      bytesWritten := 0 }
            else
              .error (st.files, .writeErr,
                { st with
                    k := st.k + 1
                    cur := some ⟨partFileName cfg.fileName i, []⟩ })
      else .ok st) := by
  unfold rollover openPart
  by_cases hroll : rollCond cfg st
  · cases hc : st.cur with
    | some p =>
        by_cases hcl : cfg.destOk st.k
        · by_cases hw : cfg.destOk (st.k + 1)
          · simp [hroll, hc, hcl, hw]
          · simp [hroll, hc, hcl, hw]
        · simp [hroll, hc, hcl]
    | none =>
        by_cases hw : cfg.destOk st.k
        · simp [hroll, hc, hw]
        · simp [hroll, hc, hw]
  · simp [hroll]

/-- `rollover` preserves the header invariant on success, and on failure
leaves only header-led parts closed. -/
theorem rollover_headerInv {cfg : SplitCfg} {header : List String}
    {st : SplitState} {i : Nat} (hinv : headerInv header st) :
    (∀ st1, rollover cfg header st i = .ok st1 → headerInv header st1) ∧
    (∀ ret e fin, rollover cfg header st i = .error (ret, e, fin) →
      ∀ p ∈ fin.closed, p.rows.head? = some header) := by
  obtain ⟨hclosed, hcur⟩ := hinv
  rw [rollover_eq cfg header st i]
  by_cases hroll : rollCond cfg st
  · cases hc : st.cur with
    | some p =>
        have hclosed' : ∀ p' ∈ st.closed ++ [p], p'.rows.head? = some header := by
          intro p' hp'
          rcases List.mem_append.mp hp' with hp' | hp'
          · exact hclosed p' hp'
          · simp at hp'
            exact hp' ▸ hcur p hc
        by_cases hcl : cfg.destOk st.k
        · by_cases hw : cfg.destOk (st.k + 1)
          · simp only [hroll, if_true, hc, hcl, hw]
            refine ⟨?_, ?_⟩
            · intro st1 h1
              cases h1
              refine ⟨hclosed', ?_⟩
              intro p' hp'
              simp at hp'
              simp [← hp']
            · intro ret e fin h1
              cases h1
          · simp only [hroll, if_true, hc, hcl, hw, if_false,
              Bool.false_eq_true]
            refine ⟨?_, ?_⟩
            · intro st1 h1
              cases h1
            · intro ret e fin h1
              simp only [Except.error.injEq, Prod.mk.injEq] at h1
              obtain ⟨-, -, h1⟩ := h1
              cases h1
              exact hclosed'
        · simp only [hroll, if_true, hc, hcl, if_false, Bool.false_eq_true]
          refine ⟨?_, ?_⟩
          · intro st1 h1
            cases h1
          · intro ret e fin h1
            simp only [Except.error.injEq, Prod.mk.injEq] at h1
            obtain ⟨-, -, h1⟩ := h1
            cases h1
            exact hclosed
    | none =>
        by_cases hw : cfg.destOk st.k
        · simp only [hroll, if_true, hc, hw]
          refine ⟨?_, ?_⟩
          · intro st1 h1
            cases h1
            refine ⟨hclosed, ?_⟩
            intro p' hp'
            simp at hp'
            simp [← hp']
          · intro ret e fin h1
            cases h1
        · simp only [hroll, if_true, hc, hw, if_false, Bool.false_eq_true]
          refine ⟨?_, ?_⟩
          · intro st1 h1
            cases h1
          · intro ret e fin h1
            simp only [Except.error.injEq, Prod.mk.injEq] at h1
            obtain ⟨-, -, h1⟩ := h1
            cases h1
            exact hclosed
  · simp only [hroll, if_false, Bool.false_eq_true]
    refine ⟨?_, ?_⟩
    · intro st1 h1
      cases h1
      exact ⟨hclosed, hcur⟩
    · intro ret e fin h1
      cases h1

/-- One loop iteration preserves the header invariant when it continues,
and leaves only header-led parts closed when it stops or crashes. -/
theorem processRecord_headerInv {cfg : SplitCfg} {header : List String}
    {st : SplitState} {i : Nat} {r : List String}
    (hinv : headerInv header st) :
    (∀ st1, processRecord cfg header st i r = .next st1 →
      headerInv header st1) ∧
    (∀ ret e fin, processRecord cfg header st i r = .halt ret e fin →
      ∀ p ∈ fin.closed, p.rows.head? = some header) ∧
    (∀ fin, processRecord cfg header st i r = .crash fin →
      ∀ p ∈ fin.closed, p.rows.head? = some header) := by
  obtain ⟨hro, hre⟩ := @rollover_headerInv cfg header st i hinv
  unfold processRecord
  cases hr : rollover cfg header st i with
  | error x =>
      obtain ⟨ret0, e0, fin0⟩ := x
      have hfin0 := hre ret0 e0 fin0 hr
      refine ⟨?_, ?_, ?_⟩
      · intro st1 h1
        cases h1
      · intro ret e fin h1
        cases h1
        exact hfin0
      · intro fin h1
        cases h1
  | ok st1 =>
      obtain ⟨hclosed1, hcur1⟩ := hro st1 hr
      cases hg : r[5]? with
      | none =>
          simp only [hg]
          refine ⟨?_, ?_, ?_⟩
          · intro st2 h1
            cases h1
          · intro ret e fin h1
            cases h1
          · intro fin h1
            cases h1
            exact hclosed1
      | some s =>
          cases hp : parseFloatD s with
          | none =>
              simp only [hg, hp]
              refine ⟨?_, ?_, ?_⟩
              · intro st2 h1
                cases h1
              · intro ret e fin h1
                cases h1
                exact hclosed1
              · intro fin h1
                cases h1
          | some q =>
              by_cases hq : gtEps q
              · by_cases hw : cfg.destOk st1.k
                · simp only [hg, hp, hq, hw, if_true]
                  refine ⟨?_, ?_, ?_⟩
                  · intro st2 h1
                    cases h1
                    refine ⟨hclosed1, ?_⟩
                    intro p' hp'
                    cases hc1 : st1.cur with
                    | none => simp [appendCur, hc1] at hp'
                    | some pc =>
                        have hhead := hcur1 pc hc1
                        simp only [appendCur, hc1, Option.some.injEq] at hp'
                        cases hrows : pc.rows with
                        | nil => simp [hrows] at hhead
                        | cons a l =>
                            rw [hrows] at hhead
                            simp at hhead
                            simp [← hp', hrows, hhead]
                  · intro ret e fin h1
                    cases h1
                  · intro fin h1
                    cases h1
                · simp only [hg, hp, hq, hw, if_true, if_false,
                    Bool.false_eq_true]
                  refine ⟨?_, ?_, ?_⟩
                  · intro st2 h1
                    cases h1
                  · intro ret e fin h1
                    cases h1
                    exact hclosed1
                  · intro fin h1
                    cases h1
              · simp only [hg, hp, hq, if_false, Bool.false_eq_true]
                refine ⟨?_, ?_, ?_⟩
                · intro st2 h1
                  cases h1
                  exact ⟨hclosed1, hcur1⟩
                · intro ret e fin h1
                  cases h1
                · intro fin h1
                  cases h1

/-- Loop invariant behind the header property: whatever the fault
schedule and however the loop exits, every closed part starts with the
header row. -/
theorem splitLoop_headerInv {cfg : SplitCfg} {header : List String} :
    ∀ (evs : List ReadEvent) (i : Nat) (st : SplitState),
      headerInv header st →
      ∀ p ∈ ((splitLoop cfg header evs i st).fin).closed,
        p.rows.head? = some header
  | [], i, st, hinv => by
      unfold splitLoop
      cases hc : st.cur with
      | some p =>
          by_cases hcl : cfg.destOk st.k
          · simp only [hc, hcl, if_true, SplitResult.fin]
            intro p' hp'
            rcases List.mem_append.mp hp' with h | h
            · exact hinv.1 p' h
            · simp at h
              exact h ▸ hinv.2 p hc
          · simp only [hc, hcl, if_false, Bool.false_eq_true,
              SplitResult.fin]
            exact hinv.1
      | none =>
          simp only [hc, SplitResult.fin]
          exact hinv.1
  | .fail msg :: rest, i, st, hinv => by
      unfold splitLoop
      simp only [SplitResult.fin]
      exact hinv.1
  | .row r :: rest, i, st, hinv => by
      unfold splitLoop
      obtain ⟨hn, hh, hcrash⟩ :=
        @processRecord_headerInv cfg header st i r hinv
      cases hpr : processRecord cfg header st i r with
      | next st1 =>
          simp only [hpr]
          exact splitLoop_headerInv rest (i + 1) st1 (hn st1 hpr)
      | halt ret e fin =>
          simp only [hpr, SplitResult.fin]
          exact hh ret e fin hpr
      | crash fin =>
          simp only [hpr, SplitResult.fin]
          exact hcrash fin hpr

/-- C7: every part produced by `splitFile` has the source header row as
its first row, verbatim, written when the part is opened and before any
data row — whatever the fault schedule and however the call exits. -/
theorem C7_part_head_is_header (cfg : SplitCfg) (header : List String)
    (evs : List ReadEvent) (p : Part)
    (hp : p ∈ ((splitFile cfg (.row header :: evs)).fin).closed) :
    p.rows.head? = some header := by
  have heq : ((splitFile cfg (.row header :: evs)).fin).closed =
      ((splitLoop cfg header evs 0 initState).fin).closed :=
    releaseReader_fin_closed _
  rw [heq] at hp
  have hinv : headerInv header initState := by
    constructor
    · intro p' hp'
      simp [initState] at hp'
    · intro p' hp'
      simp [initState] at hp'
  exact splitLoop_headerInv evs 0 initState hinv p hp

/-- Witness for C7 at a concrete input: the produced part of a two-row
source starts with the source header. -/
theorem C7_part_head_is_header_witness :
    ((⟨"g.csv_part_000000.csv",
        [["h1", "h2", "h3", "h4", "h5", "h6"],
         ["y", "", "", "", "", "2"]]⟩ : Part) ∈
      ((splitFile ⟨"g.csv", 100, fun _ => true⟩
          [.row ["h1", "h2", "h3", "h4", "h5", "h6"],
           .row ["y", "", "", "", "", "2"]]).fin).closed) ∧
    (⟨"g.csv_part_000000.csv",
        [["h1", "h2", "h3", "h4", "h5", "h6"],
         ["y", "", "", "", "", "2"]]⟩ : Part).rows.head? =
      some ["h1", "h2", "h3", "h4", "h5", "h6"] :=
  ⟨by decide,
    C7_part_head_is_header ⟨"g.csv", 100, fun _ => true⟩
      ["h1", "h2", "h3", "h4", "h5", "h6"]
      [.row ["y", "", "", "", "", "2"]] _ (by decide)⟩

/-- C1: at end of input the loop closes the open part but never records
its FileRef (main.go lines 177–179 call `wc.Close()` without appending
to `files`).  On a source with one included data row, the part is
written and closed — it appears in the destination with the header and
the row — yet the returned FileRef sequence is empty. -/
theorem C1_last_part_not_recorded :
    splitFile ⟨"f1.csv", 100, fun _ => true⟩
        [.row ["a", "b", "c", "d", "e", "f"],
         .row ["x", "", "", "", "", "7"]] =
      .done []
        ⟨3, [],
         [⟨"f1.csv_part_000000.csv",
           [["a", "b", "c", "d", "e", "f"], ["x", "", "", "", "", "7"]]⟩],
         none, 8, false⟩ := by
  decide

/-- C6: with a 100-byte threshold and three included rows whose size
accounting is 60 bytes each, the split writes exactly two parts — the
first with data rows 1 and 2 (the accumulated 120 bytes pass the
threshold only after row 2 is written), the second with data row 3. -/
theorem C6_two_parts_of_three_rows :
    rowBytes ["xxxxxxxxxxxxxxxxxxxxxxxxxxxxxxxxxxxxxxxxxxxxxxxxxxxxx",
      "", "", "", "", "1"] = 60 ∧
    rowBytes ["xxxxxxxxxxxxxxxxxxxxxxxxxxxxxxxxxxxxxxxxxxxxxxxxxxxxx",
      "", "", "", "", "2"] = 60 ∧
    rowBytes ["xxxxxxxxxxxxxxxxxxxxxxxxxxxxxxxxxxxxxxxxxxxxxxxxxxxxx",
      "", "", "", "", "3"] = 60 ∧
    splitFile ⟨"f6.csv", 100, fun _ => true⟩
        [.row ["a", "b", "c", "d", "e", "f"],
         .row ["xxxxxxxxxxxxxxxxxxxxxxxxxxxxxxxxxxxxxxxxxxxxxxxxxxxxx",
           "", "", "", "", "1"],
         .row ["xxxxxxxxxxxxxxxxxxxxxxxxxxxxxxxxxxxxxxxxxxxxxxxxxxxxx",
           "", "", "", "", "2"],
         .row ["xxxxxxxxxxxxxxxxxxxxxxxxxxxxxxxxxxxxxxxxxxxxxxxxxxxxx",
           "", "", "", "", "3"]] =
      .done [⟨"cmrc-integrations", "f6.csv_part_000000.csv"⟩]
        ⟨7, [⟨"cmrc-integrations", "f6.csv_part_000000.csv"⟩],
         [⟨"f6.csv_part_000000.csv",
           [["a", "b", "c", "d", "e", "f"],
            ["xxxxxxxxxxxxxxxxxxxxxxxxxxxxxxxxxxxxxxxxxxxxxxxxxxxxx",
              "", "", "", "", "1"],
            ["xxxxxxxxxxxxxxxxxxxxxxxxxxxxxxxxxxxxxxxxxxxxxxxxxxxxx",
              "", "", "", "", "2"]]⟩,
          ⟨"f6.csv_part_000002.csv",
           [["a", "b", "c", "d", "e", "f"],
            ["xxxxxxxxxxxxxxxxxxxxxxxxxxxxxxxxxxxxxxxxxxxxxxxxxxxxx",
              "", "", "", "", "3"]]⟩],
         none, 60, false⟩ :=
  ⟨by decide, by decide, by decide, by decide⟩

/-- C8: a continuing loop iteration sets the byte count to exactly 0 at
the moment a new part is opened (the rollover case) and at no other
time; between resets it never decreases, growing only by the
comma-joined length plus one of an included record, with dropped records
contributing zero. -/
theorem C8_bytesWritten_accounting {cfg : SplitCfg} {header : List String}
    {st : SplitState} {i : Nat} {r : List String} {st1 : SplitState}
    (h : processRecord cfg header st i r = .next st1) :
    (rollCond cfg st = true →
      st1.bytesWritten = (if includeRec r then rowBytes r else 0)) ∧
    (rollCond cfg st = false →
      st1.bytesWritten =
        st.bytesWritten + (if includeRec r then rowBytes r else 0)) := by
  unfold processRecord at h
  rw [rollover_eq cfg header st i] at h
  by_cases hroll : rollCond cfg st
  · cases hc : st.cur with
    | some p =>
        by_cases hcl : cfg.destOk st.k
        · by_cases hw : cfg.destOk (st.k + 1)
          · simp only [hroll, if_true, hc, hcl, hw] at h
            cases hg : r[5]? with
            | none => simp [hg] at h
            | some s =>
              cases hp : parseFloatD s with
              | none => simp [hg, hp] at h
              | some q =>
                by_cases hq : gtEps q
                · simp only [hg, hp, hq, if_true, hw] at h
                  by_cases hw2 : cfg.destOk (st.k + 2)
                  · simp only [hw2, if_true] at h
                    cases h
                    refine ⟨fun _ => ?_, fun hcon => ?_⟩
                    · simp [includeRec, hg, hp, hq]
                    · rw [hroll] at hcon
                      cases hcon
                  · simp [hw2] at h
                · simp only [hg, hp, hq, if_false, Bool.false_eq_true] at h
                  cases h
                  refine ⟨fun _ => ?_, fun hcon => ?_⟩
                  · simp [includeRec, hg, hp, hq]
                  · rw [hroll] at hcon
                    cases hcon
          · simp [hroll, hc, hcl, hw] at h
        · simp [hroll, hc, hcl] at h
    | none =>
        by_cases hw : cfg.destOk st.k
        · simp only [hroll, if_true, hc, hw] at h
          cases hg : r[5]? with
          | none => simp [hg] at h
          | some s =>
            cases hp : parseFloatD s with
            | none => simp [hg, hp] at h
            | some q =>
              by_cases hq : gtEps q
              · simp only [hg, hp, hq, if_true] at h
                by_cases hw2 : cfg.destOk (st.k + 1)
                · simp only [hw2, if_true] at h
                  cases h
                  refine ⟨fun _ => ?_, fun hcon => ?_⟩
                  · simp [includeRec, hg, hp, hq]
                  · rw [hroll] at hcon
                    cases hcon
                · simp [hw2] at h
              · simp only [hg, hp, hq, if_false, Bool.false_eq_true] at h
                cases h
                refine ⟨fun _ => ?_, fun hcon => ?_⟩
                · simp [includeRec, hg, hp, hq]
                · rw [hroll] at hcon
                  cases hcon
        · simp [hroll, hc, hw] at h
  · simp only [hroll, if_false, Bool.false_eq_true] at h
    cases hg : r[5]? with
    | none => simp [hg] at h
    | some s =>
      cases hp : parseFloatD s with
      | none => simp [hg, hp] at h
      | some q =>
        by_cases hq : gtEps q
        · simp only [hg, hp, hq, if_true] at h
          by_cases hw : cfg.destOk st.k
          · simp only [hw, if_true] at h
            cases h
            refine ⟨fun hcon => ?_, fun _ => ?_⟩
            · rw [hcon] at hroll
              exact absurd rfl hroll
            · simp [includeRec, hg, hp, hq]
          · simp [hw] at h
        · simp only [hg, hp, hq, if_false, Bool.false_eq_true] at h
          cases h
          refine ⟨fun hcon => ?_, fun _ => ?_⟩
          · rw [hcon] at hroll
            exact absurd rfl hroll
          · simp [includeRec, hg, hp, hq]

/-- Witness for C8 at a concrete input: the first record opens a part,
so the byte count after the iteration is exactly that record's size
contribution. -/
theorem C8_bytesWritten_accounting_witness :
    rollCond ⟨"f8.csv", 100, fun _ => true⟩ initState = true ∧
    (⟨2, [], [],
      some ⟨"f8.csv_part_000000.csv",
        [["a", "b", "c", "d", "e", "f"], ["x", "", "", "", "", "1"]]⟩,
      8, true⟩ : SplitState).bytesWritten =
      (if includeRec ["x", "", "", "", "", "1"] then
        rowBytes ["x", "", "", "", "", "1"] else 0) :=
  ⟨by decide,
    (@C8_bytesWritten_accounting ⟨"f8.csv", 100, fun _ => true⟩
      ["a", "b", "c", "d", "e", "f"] initState 0 ["x", "", "", "", "", "1"]
      ⟨2, [], [],
        some ⟨"f8.csv_part_000000.csv",
          [["a", "b", "c", "d", "e", "f"], ["x", "", "", "", "", "1"]]⟩,
        8, true⟩ (by decide)).1 (by decide)⟩

/-- Absolute-value comparison `|value| > 0.0001` on an exact decimal,
by cross-multiplication; see `absGtEps_eq_toQ`. -/
def absGtEps (d : Dec) : Bool :=
  decide ((d.num.natAbs : Int) * 10000 > ((10 ^ d.exp : Nat) : Int))

/-- The cross-multiplied comparison `absGtEps` decides exactly the
rational comparison `|d.toQ| > epsQ`. -/
theorem absGtEps_eq_toQ (d : Dec) : absGtEps d = decide (|d.toQ| > epsQ) := by
  have hD : (0 : ℚ) < (10 : ℚ) ^ d.exp := by positivity
  simp only [absGtEps, Dec.toQ, epsQ, decide_eq_decide, gt_iff_lt]
  rw [abs_div, abs_of_pos hD, div_lt_div_iff₀ (by norm_num) hD, one_mul]
  rw [← Int.abs_eq_natAbs]
  constructor
  · intro h
    exact_mod_cast h
  · intro h
    exact_mod_cast h

/-- Modelled from the spec's words (§8): "A row is included iff
`abs(parseFloat(quantity_field)) > 0.0001`" — the absolute-value filter
the spec attributes to the code, for comparison with the code's actual
`includeRec`. -/
def includeRecSpec (record : List String) : Bool :=
  match record[5]? with
  | some s =>
      match parseFloatD s with
      | some d => absGtEps d
      | none => false
  | none => false

/-- C3 counterexample: a record whose quantity parses to −5 passes the
spec's absolute-value filter but is dropped by the code, whose test
`row5 - 0. > 0.0001` is signed: the produced part holds only the
header. -/
theorem C3_negative_quantity_dropped :
    includeRecSpec ["x", "", "", "", "", "-5"] = true ∧
    includeRec ["x", "", "", "", "", "-5"] = false ∧
    (splitFile ⟨"f3.csv", 100, fun _ => true⟩
        [.row ["a", "b", "c", "d", "e", "f"],
         .row ["x", "", "", "", "", "-5"]]).fin.closed =
      [⟨"f3.csv_part_000000.csv", [["a", "b", "c", "d", "e", "f"]]⟩] :=
  ⟨by decide, by decide, by decide⟩

/-- C3 amended: a continuing loop iteration appends the record to the
rows held in parts iff the signed parsed quantity exceeds `0.0001`;
records whose quantity is at or below the epsilon — all negative values
included — are dropped. -/
theorem C3_signed_inclusion :
    (∀ (cfg : SplitCfg) (header : List String) (st : SplitState) (i : Nat)
        (r : List String) (st1 : SplitState),
      processRecord cfg header st i r = .next st1 →
      stateRows st1 =
        stateRows st ++ (if rollCond cfg st then [header] else []) ++
          (if includeRec r then [r] else [])) ∧
    (∀ (r : List String) (s : String) (d : Dec),
      r[5]? = some s → parseFloatD s = some d →
      includeRec r = decide (d.toQ - 0 > epsQ)) ∧
    (∀ (r : List String) (s : String) (d : Dec),
      r[5]? = some s → parseFloatD s = some d → d.toQ ≤ 0 →
      includeRec r = false) := by
  refine ⟨?_, ?_, ?_⟩
  · intro cfg header st i r st1 h
    unfold processRecord at h
    rw [rollover_eq cfg header st i] at h
    by_cases hroll : rollCond cfg st
    · cases hc : st.cur with
      | some p =>
          by_cases hcl : cfg.destOk st.k
          · by_cases hw : cfg.destOk (st.k + 1)
            · simp only [hroll, if_true, hc, hcl, hw] at h
              cases hg : r[5]? with
              | none => simp [hg] at h
              | some s =>
                cases hp : parseFloatD s with
                | none => simp [hg, hp] at h
                | some q =>
                  by_cases hq : gtEps q
                  · simp only [hg, hp, hq, if_true] at h
                    by_cases hw2 : cfg.destOk (st.k + 2)
                    · simp only [hw2, if_true] at h
                      cases h
                      simp [stateRows, hroll, hc, includeRec, hg, hp, hq,
                        appendCur, List.map_append, List.flatten_append,
                        List.append_assoc]
                    · simp [hw2] at h
                  · simp only [hg, hp, hq, if_false, Bool.false_eq_true] at h
                    cases h
                    simp [stateRows, hroll, hc, includeRec, hg, hp, hq,
                      List.map_append, List.flatten_append, List.append_assoc]
            · simp [hroll, hc, hcl, hw] at h
          · simp [hroll, hc, hcl] at h
      | none =>
          by_cases hw : cfg.destOk st.k
          · simp only [hroll, if_true, hc, hw] at h
            cases hg : r[5]? with
            | none => simp [hg] at h
            | some s =>
              cases hp : parseFloatD s with
              | none => simp [hg, hp] at h
              | some q =>
                by_cases hq : gtEps q
                · simp only [hg, hp, hq, if_true] at h
                  by_cases hw2 : cfg.destOk (st.k + 1)
                  · simp only [hw2, if_true] at h
                    cases h
                    simp [stateRows, hroll, hc, includeRec, hg, hp, hq,
                      appendCur]
                  · simp [hw2] at h
                · simp only [hg, hp, hq, if_false, Bool.false_eq_true] at h
                  cases h
                  simp [stateRows, hroll, hc, includeRec, hg, hp, hq]
          · simp [hroll, hc, hw] at h
    · cases hc : st.cur with
      | none => simp [rollCond, hc] at hroll
      | some p =>
          simp only [hroll, if_false, Bool.false_eq_true] at h
          cases hg : r[5]? with
          | none => simp [hg] at h
          | some s =>
            cases hp : parseFloatD s with
            | none => simp [hg, hp] at h
            | some q =>
              by_cases hq : gtEps q
              · simp only [hg, hp, hq, if_true] at h
                by_cases hw : cfg.destOk st.k
                · simp only [hw, if_true] at h
                  cases h
                  simp [stateRows, hroll, hc, includeRec, hg, hp, hq,
                    appendCur, List.append_assoc]
                · simp [hw] at h
              · simp only [hg, hp, hq, if_false, Bool.false_eq_true] at h
                cases h
                simp [stateRows, hroll, hc, includeRec, hg, hp, hq]
  · intro r s d hg hp
    simp [includeRec, hg, hp, gtEps_eq_toQ]
  · intro r s d hg hp hle
    simp only [includeRec, hg, hp, gtEps_eq_toQ d]
    simp only [decide_eq_false_iff_not, not_lt, gt_iff_lt]
    have : (0 : ℚ) < epsQ := by norm_num [epsQ]
    linarith

/-- Witness for C3's amended statement at a concrete input: a record
whose quantity parses above the epsilon is appended to the open part's
rows by the iteration. -/
theorem C3_signed_inclusion_witness :
    processRecord ⟨"f3w.csv", 100, fun _ => true⟩
        ["a", "b", "c", "d", "e", "f"] initState 0
        ["z", "", "", "", "", "3"] =
      .next
        ⟨2, [], [],
         some ⟨"f3w.csv_part_000000.csv",
           [["a", "b", "c", "d", "e", "f"], ["z", "", "", "", "", "3"]]⟩,
         8, true⟩ ∧
    stateRows
        (⟨2, [], [],
          some ⟨"f3w.csv_part_000000.csv",
            [["a", "b", "c", "d", "e", "f"], ["z", "", "", "", "", "3"]]⟩,
          8, true⟩ : SplitState) =
      stateRows initState ++
        (if rollCond ⟨"f3w.csv", 100, fun _ => true⟩ initState then
          [["a", "b", "c", "d", "e", "f"]] else []) ++
        (if includeRec ["z", "", "", "", "", "3"] then
          [["z", "", "", "", "", "3"]] else []) :=
  ⟨by decide,
    C3_signed_inclusion.1 ⟨"f3w.csv", 100, fun _ => true⟩
      ["a", "b", "c", "d", "e", "f"] initState 0 ["z", "", "", "", "", "3"]
      ⟨2, [], [],
       some ⟨"f3w.csv_part_000000.csv",
         [["a", "b", "c", "d", "e", "f"], ["z", "", "", "", "", "3"]]⟩,
       8, true⟩ (by decide)⟩

/-- The deferred reader close runs on every exit path of `splitFile`. -/
theorem releaseReader_fin_rOpen (r : SplitResult) :
    (releaseReader r).fin.rOpen = false := by
  cases r <;> rfl

/-- C9 counterexample: a numeric-parse failure while a part is open
returns without closing the destination write handle — the final state
still holds an open part. -/
theorem C9_parse_error_leaves_handle_open :
    (splitFile ⟨"f9.csv", 100, fun _ => true⟩
        [.row ["a", "b", "c", "d", "e", "f"],
         .row ["x", "", "", "", "", "1"],
         .row ["y", "", "", "", "", "zz"]]).errOf =
      some (.parseErr "zz") ∧
    ((splitFile ⟨"f9.csv", 100, fun _ => true⟩
        [.row ["a", "b", "c", "d", "e", "f"],
         .row ["x", "", "", "", "", "1"],
         .row ["y", "", "", "", "", "zz"]]).fin.cur).isSome = true :=
  ⟨by decide, by decide⟩

/-- A loop that reaches end of input always closes the open destination
writer (main.go lines 177–179). -/
theorem splitLoop_done_cur_none {cfg : SplitCfg} {header : List String} :
    ∀ (evs : List ReadEvent) (i : Nat) (st : SplitState) (ret : List File)
      (fin : SplitState),
      splitLoop cfg header evs i st = .done ret fin → fin.cur = none
  | [], i, st, ret, fin, h => by
      unfold splitLoop at h
      cases hc : st.cur with
      | some p =>
          by_cases hcl : cfg.destOk st.k
          · simp only [hc, hcl, if_true, SplitResult.done.injEq] at h
            obtain ⟨-, h2⟩ := h
            rw [← h2]
          · simp only [hc, hcl, if_false, Bool.false_eq_true,
              SplitResult.done.injEq] at h
            obtain ⟨-, h2⟩ := h
            rw [← h2]
      | none =>
          simp only [hc, SplitResult.done.injEq] at h
          obtain ⟨-, h2⟩ := h
          rw [← h2]
          exact hc
  | .fail msg :: rest, i, st, ret, fin, h => by
      simp [splitLoop] at h
  | .row r :: rest, i, st, ret, fin, h => by
      unfold splitLoop at h
      cases hpr : processRecord cfg header st i r with
      | next st1 =>
          simp only [hpr] at h
          exact splitLoop_done_cur_none rest (i + 1) st1 ret fin h
      | halt ret1 e fin1 => simp [hpr] at h
      | crash fin1 => simp [hpr] at h

/-- Invariant: once some part has been closed, a destination writer is
open (the rollover that closes a part immediately opens the next one). -/
def inv9 (st : SplitState) : Prop :=
  st.closed ≠ [] → st.cur.isSome = true

/-- One continuing loop iteration preserves `inv9`. -/
theorem processRecord_inv9_next {cfg : SplitCfg} {header : List String}
    {st : SplitState} {i : Nat} {r : List String} {st1 : SplitState}
    (hinv : inv9 st) (h : processRecord cfg header st i r = .next st1) :
    inv9 st1 := by
  unfold processRecord at h
  rw [rollover_eq cfg header st i] at h
  by_cases hroll : rollCond cfg st
  · cases hc : st.cur with
    | some p =>
        by_cases hcl : cfg.destOk st.k
        · by_cases hw : cfg.destOk (st.k + 1)
          · simp only [hroll, if_true, hc, hcl, hw] at h
            cases hg : r[5]? with
            | none => simp [hg] at h
            | some s =>
              cases hp : parseFloatD s with
              | none => simp [hg, hp] at h
              | some q =>
                by_cases hq : gtEps q
                · simp only [hg, hp, hq, if_true] at h
                  by_cases hw2 : cfg.destOk (st.k + 2)
                  · simp only [hw2, if_true] at h
                    cases h
                    intro _
                    simp [appendCur]
                  · simp [hw2] at h
                · simp only [hg, hp, hq, if_false, Bool.false_eq_true] at h
                  cases h
                  intro _
                  simp
          · simp [hroll, hc, hcl, hw] at h
        · simp [hroll, hc, hcl] at h
    | none =>
        by_cases hw : cfg.destOk st.k
        · simp only [hroll, if_true, hc, hw] at h
          cases hg : r[5]? with
          | none => simp [hg] at h
          | some s =>
            cases hp : parseFloatD s with
            | none => simp [hg, hp] at h
            | some q =>
              by_cases hq : gtEps q
              · simp only [hg, hp, hq, if_true] at h
                by_cases hw2 : cfg.destOk (st.k + 1)
                · simp only [hw2, if_true] at h
                  cases h
                  intro _
                  simp [appendCur]
                · simp [hw2] at h
              · simp only [hg, hp, hq, if_false, Bool.false_eq_true] at h
                cases h
                intro _
                simp
        · simp [hroll, hc, hw] at h
  · cases hc : st.cur with
    | none => simp [rollCond, hc] at hroll
    | some p =>
        simp only [hroll, if_false, Bool.false_eq_true] at h
        cases hg : r[5]? with
        | none => simp [hg] at h
        | some s =>
          cases hp : parseFloatD s with
          | none => simp [hg, hp] at h
          | some q =>
            by_cases hq : gtEps q
            · simp only [hg, hp, hq, if_true] at h
              by_cases hw : cfg.destOk st.k
              · simp only [hw, if_true] at h
                cases h
                intro _
                simp [appendCur, hc]
              · simp [hw] at h
            · simp only [hg, hp, hq, if_false, Bool.false_eq_true] at h
              cases h
              exact hinv

/-- A halt whose error is not a close failure leaves `inv9` standing —
those error returns do not release the open writer. -/
theorem processRecord_inv9_halt {cfg : SplitCfg} {header : List String}
    {st : SplitState} {i : Nat} {r : List String} {ret : List File}
    {e : SplitError} {fin : SplitState}
    (_hinv : inv9 st) (h : processRecord cfg header st i r = .halt ret e fin)
    (hcl : e.isClose = false) : inv9 fin := by
  unfold processRecord at h
  rw [rollover_eq cfg header st i] at h
  by_cases hroll : rollCond cfg st
  · cases hc : st.cur with
    | some p =>
        by_cases hclo : cfg.destOk st.k
        · by_cases hw : cfg.destOk (st.k + 1)
          · simp only [hroll, if_true, hc, hclo, hw] at h
            cases hg : r[5]? with
            | none => simp [hg] at h
            | some s =>
              cases hp : parseFloatD s with
              | none =>
                  simp only [hg, hp, StepRes.halt.injEq] at h
                  obtain ⟨-, -, h3⟩ := h
                  rw [← h3]
                  intro _
                  simp
              | some q =>
                by_cases hq : gtEps q
                · simp only [hg, hp, hq, if_true] at h
                  by_cases hw2 : cfg.destOk (st.k + 2)
                  · simp [hw2] at h
                  · simp only [hw2, if_false, Bool.false_eq_true,
                      StepRes.halt.injEq] at h
                    obtain ⟨-, -, h3⟩ := h
                    rw [← h3]
                    intro _
                    simp
                · simp [hg, hp, hq] at h
          · simp only [hroll, if_true, hc, hclo, hw, if_false,
              Bool.false_eq_true, StepRes.halt.injEq] at h
            obtain ⟨-, -, h3⟩ := h
            rw [← h3]
            intro _
            simp
        · simp only [hroll, if_true, hc, hclo, if_false, Bool.false_eq_true,
            StepRes.halt.injEq] at h
          obtain ⟨-, h2, -⟩ := h
          rw [← h2] at hcl
          simp [SplitError.isClose] at hcl
    | none =>
        by_cases hw : cfg.destOk st.k
        · simp only [hroll, if_true, hc, hw] at h
          cases hg : r[5]? with
          | none => simp [hg] at h
          | some s =>
            cases hp : parseFloatD s with
            | none =>
                simp only [hg, hp, StepRes.halt.injEq] at h
                obtain ⟨-, -, h3⟩ := h
                rw [← h3]
                intro _
                simp
            | some q =>
              by_cases hq : gtEps q
              · simp only [hg, hp, hq, if_true] at h
                by_cases hw2 : cfg.destOk (st.k + 1)
                · simp [hw2] at h
                · simp only [hw2, if_false, Bool.false_eq_true,
                    StepRes.halt.injEq] at h
                  obtain ⟨-, -, h3⟩ := h
                  rw [← h3]
                  intro _
                  simp
              · simp [hg, hp, hq] at h
        · simp only [hroll, if_true, hc, hw, if_false, Bool.false_eq_true,
            StepRes.halt.injEq] at h
          obtain ⟨-, -, h3⟩ := h
          rw [← h3]
          intro _
          simp
  · cases hc : st.cur with
    | none => simp [rollCond, hc] at hroll
    | some p =>
        simp only [hroll, if_false, Bool.false_eq_true] at h
        cases hg : r[5]? with
        | none => simp [hg] at h
        | some s =>
          cases hp : parseFloatD s with
          | none =>
              simp only [hg, hp, StepRes.halt.injEq] at h
              obtain ⟨-, -, h3⟩ := h
              rw [← h3]
              intro _
              simp [hc]
          | some q =>
            by_cases hq : gtEps q
            · simp only [hg, hp, hq, if_true] at h
              by_cases hw : cfg.destOk st.k
              · simp [hw] at h
              · simp only [hw, if_false, Bool.false_eq_true,
                  StepRes.halt.injEq] at h
                obtain ⟨-, -, h3⟩ := h
                rw [← h3]
                intro _
                simp [hc]
            · simp [hg, hp, hq] at h

/-- Loop form of the `inv9` preservation: a failed loop whose error is
not a close failure leaves the open-writer invariant standing. -/
theorem splitLoop_failed_inv9 {cfg : SplitCfg} {header : List String} :
    ∀ (evs : List ReadEvent) (i : Nat) (st : SplitState) (ret : List File)
      (e : SplitError) (fin : SplitState),
      inv9 st →
      splitLoop cfg header evs i st = .failed ret e fin →
      e.isClose = false → inv9 fin
  | [], i, st, ret, e, fin, hinv, h => by
      unfold splitLoop at h
      cases hc : st.cur with
      | some p =>
          by_cases hcl : cfg.destOk st.k
          · simp [hc, hcl] at h
          · simp [hc, hcl] at h
      | none => simp [hc] at h
  | .fail msg :: rest, i, st, ret, e, fin, hinv, h => by
      simp only [splitLoop, SplitResult.failed.injEq] at h
      obtain ⟨-, -, h3⟩ := h
      rw [← h3]
      intro _
      exact hinv
  | .row r :: rest, i, st, ret, e, fin, hinv, h => by
      unfold splitLoop at h
      cases hpr : processRecord cfg header st i r with
      | next st1 =>
          simp only [hpr] at h
          exact splitLoop_failed_inv9 rest (i + 1) st1 ret e fin
            (processRecord_inv9_next hinv hpr) h
      | halt ret1 e1 fin1 =>
          simp only [hpr, SplitResult.failed.injEq] at h
          obtain ⟨-, h2, h3⟩ := h
          intro hcl
          rw [← h3]
          exact processRecord_inv9_halt hinv hpr (h2 ▸ hcl)
      | crash fin1 => simp [hpr] at h

/-- C9 (amended): the source read stream is released on every exit path
(the deferred close); the destination write handle is closed on the
normal end-of-input path; but an error return that is not itself a close
failure does not release the writer — once any part has been closed, the
final state still holds an open writer. -/
theorem C9_resource_release :
    (∀ (cfg : SplitCfg) (input : List ReadEvent),
      ((splitFile cfg input).fin).rOpen = false) ∧
    (∀ (cfg : SplitCfg) (input : List ReadEvent) (ret : List File)
        (fin : SplitState),
      splitFile cfg input = .done ret fin → fin.cur = none) ∧
    (∀ (cfg : SplitCfg) (input : List ReadEvent) (ret : List File)
        (e : SplitError) (fin : SplitState),
      splitFile cfg input = .failed ret e fin → e.isClose = false →
      fin.closed ≠ [] → fin.cur.isSome = true) := by
  refine ⟨?_, ?_, ?_⟩
  · intro cfg input
    unfold splitFile
    cases input with
    | nil => exact releaseReader_fin_rOpen _
    | cons ev rest =>
        cases ev with
        | row header => exact releaseReader_fin_rOpen _
        | fail msg => exact releaseReader_fin_rOpen _
  · intro cfg input ret fin h
    cases input with
    | nil => simp [splitFile, releaseReader] at h
    | cons ev rest =>
        cases ev with
        | fail msg => simp [splitFile, releaseReader] at h
        | row header =>
            have h' : releaseReader (splitLoop cfg header rest 0 initState) =
                .done ret fin := h
            cases hres : splitLoop cfg header rest 0 initState with
            | done r f =>
                rw [hres] at h'
                simp only [releaseReader, SplitResult.done.injEq] at h'
                obtain ⟨-, h2⟩ := h'
                have := splitLoop_done_cur_none rest 0 initState r f hres
                rw [← h2]
                exact this
            | failed r e f =>
                rw [hres] at h'
                simp [releaseReader] at h'
            | panicked f =>
                rw [hres] at h'
                simp [releaseReader] at h'
  · intro cfg input ret e fin h hcl hne
    cases input with
    | nil =>
        have h' : releaseReader (.failed [] (.readErr "EOF") initState) =
            .failed ret e fin := h
        simp only [releaseReader, SplitResult.failed.injEq] at h'
        obtain ⟨-, -, h3⟩ := h'
        rw [← h3] at hne
        simp [initState] at hne
    | cons ev rest =>
        cases ev with
        | fail msg =>
            have h' : releaseReader (.failed [] (.readErr msg) initState) =
                .failed ret e fin := h
            simp only [releaseReader, SplitResult.failed.injEq] at h'
            obtain ⟨-, -, h3⟩ := h'
            rw [← h3] at hne
            simp [initState] at hne
        | row header =>
            have h' : releaseReader (splitLoop cfg header rest 0 initState) =
                .failed ret e fin := h
            cases hres : splitLoop cfg header rest 0 initState with
            | done r f =>
                rw [hres] at h'
                simp [releaseReader] at h'
            | panicked f =>
                rw [hres] at h'
                simp [releaseReader] at h'
            | failed r e1 f =>
                rw [hres] at h'
                simp only [releaseReader, SplitResult.failed.injEq] at h'
                obtain ⟨-, he, h3⟩ := h'
                have hinv0 : inv9 initState := by
                  intro hco
                  simp [initState] at hco
                have := splitLoop_failed_inv9 rest 0 initState r e1 f hinv0
                  hres (he ▸ hcl)
                rw [← h3] at hne ⊢
                exact this hne

/-- Witness for C9's amended statement at concrete inputs: the reader is
released, and a run to end of input leaves no open writer. -/
theorem C9_resource_release_witness :
    ((splitFile ⟨"f9w.csv", 100, fun _ => true⟩
        [.row ["a", "b", "c", "d", "e", "f"],
         .row ["w", "", "", "", "", "4"]]).fin).rOpen = false ∧
    (⟨3, [],
      [⟨"f9w.csv_part_000000.csv",
        [["a", "b", "c", "d", "e", "f"], ["w", "", "", "", "", "4"]]⟩],
      none, 8, false⟩ : SplitState).cur = none :=
  ⟨C9_resource_release.1 ⟨"f9w.csv", 100, fun _ => true⟩
      [.row ["a", "b", "c", "d", "e", "f"],
       .row ["w", "", "", "", "", "4"]],
    C9_resource_release.2.1 ⟨"f9w.csv", 100, fun _ => true⟩
      [.row ["a", "b", "c", "d", "e", "f"],
       .row ["w", "", "", "", "", "4"]] []
      ⟨3, [],
       [⟨"f9w.csv_part_000000.csv",
         [["a", "b", "c", "d", "e", "f"], ["w", "", "", "", "", "4"]]⟩],
       none, 8, false⟩ (by decide)⟩

/-- A crash of the loop body can only come from the unguarded
`record[5]` access: the record has no field at index 5. -/
theorem processRecord_crash_getElem {cfg : SplitCfg} {header : List String}
    {st : SplitState} {i : Nat} {r : List String} {fin : SplitState}
    (h : processRecord cfg header st i r = .crash fin) : r[5]? = none := by
  unfold processRecord at h
  cases hr : rollover cfg header st i with
  | error x =>
      obtain ⟨ret0, e0, fin0⟩ := x
      rw [hr] at h
      cases h
  | ok st1 =>
      rw [hr] at h
      cases hg : r[5]? with
      | none => rfl
      | some s =>
          simp only [hg] at h
          cases hp : parseFloatD s with
          | none => simp [hp] at h
          | some q =>
              simp only [hp] at h
              by_cases hq : gtEps q
              · simp only [hq, if_true] at h
                by_cases hw : cfg.destOk st1.k
                · simp [hw] at h
                · simp [hw] at h
              · simp [hq] at h

/-- If every record of the remaining events has at least 6 fields, the
loop never panics, whatever else happens. -/
theorem splitLoop_no_crash {cfg : SplitCfg} {header : List String} :
    ∀ (evs : List ReadEvent) (i : Nat) (st : SplitState),
      (∀ r ∈ recordsOf evs, 6 ≤ r.length) →
      (splitLoop cfg header evs i st).isPanic = false
  | [], i, st, hlen => by
      unfold splitLoop
      cases hc : st.cur with
      | some p =>
          by_cases hcl : cfg.destOk st.k
          · simp [hc, hcl, SplitResult.isPanic]
          · simp [hc, hcl, SplitResult.isPanic]
      | none => simp [hc, SplitResult.isPanic]
  | .fail msg :: rest, i, st, hlen => by
      simp [splitLoop, SplitResult.isPanic]
  | .row r :: rest, i, st, hlen => by
      unfold splitLoop
      cases hpr : processRecord cfg header st i r with
      | next st1 =>
          simp only [hpr]
          refine splitLoop_no_crash rest (i + 1) st1 ?_
          intro r' hr'
          exact hlen r' (by simp [recordsOf] at hr' ⊢; exact Or.inr hr')
      | halt ret1 e fin1 =>
          simp [hpr, SplitResult.isPanic]
      | crash fin1 =>
          have h5 : r[5]? = none := processRecord_crash_getElem hpr
          have hlen5 : 6 ≤ r.length := by
            refine hlen r ?_
            simp [recordsOf]
          rw [List.getElem?_eq_none_iff] at h5
          omega

/-- C10: `splitFile` accesses field 5 of each data record with no bounds
check.  When every record of the stream has at least 6 fields the call
never panics — it is total, returning a result or an error.  A source
whose records have fewer than 6 fields panics instead of returning an
error. -/
theorem C10_field5_access_bounds :
    (∀ (cfg : SplitCfg) (header : List String) (evs : List ReadEvent),
      (∀ r ∈ recordsOf evs, 6 ≤ r.length) →
      (splitFile cfg (.row header :: evs)).isPanic = false) ∧
    (splitFile ⟨"f10.csv", 100, fun _ => true⟩
        [.row ["a", "b"], .row ["p", "q"]]).isPanic = true := by
  constructor
  · intro cfg header evs hlen
    have : (splitFile cfg (.row header :: evs)).isPanic =
        (releaseReader (splitLoop cfg header evs 0 initState)).isPanic := rfl
    rw [this]
    have hloop := @splitLoop_no_crash cfg header evs 0 initState hlen
    cases hres : splitLoop cfg header evs 0 initState with
    | done r f => simp [releaseReader, SplitResult.isPanic]
    | failed r e f => simp [releaseReader, SplitResult.isPanic]
    | panicked f => rw [hres] at hloop; simp [SplitResult.isPanic] at hloop
  · decide

/-- Witness for C10's no-panic half at a concrete input whose records
all have 6 fields. -/
theorem C10_field5_access_bounds_witness :
    (splitFile ⟨"f10w.csv", 100, fun _ => true⟩
        [.row ["a", "b", "c", "d", "e", "f"],
         .row ["v", "", "", "", "", "5"]]).isPanic = false :=
  C10_field5_access_bounds.1 ⟨"f10w.csv", 100, fun _ => true⟩
    ["a", "b", "c", "d", "e", "f"] [.row ["v", "", "", "", "", "5"]]
    (by decide)

/-- A continuing loop iteration keeps the accumulated FileRef list in
lockstep with the closed parts: both grow together at a successful
rollover close. -/
theorem processRecord_files_next {cfg : SplitCfg} {header : List String}
    {st : SplitState} {i : Nat} {r : List String} {st1 : SplitState}
    (hinv : st.files = st.closed.map partRef)
    (h : processRecord cfg header st i r = .next st1) :
    st1.files = st1.closed.map partRef := by
  unfold processRecord at h
  rw [rollover_eq cfg header st i] at h
  by_cases hroll : rollCond cfg st
  · cases hc : st.cur with
    | some p =>
        by_cases hcl : cfg.destOk st.k
        · by_cases hw : cfg.destOk (st.k + 1)
          · simp only [hroll, if_true, hc, hcl, hw] at h
            cases hg : r[5]? with
            | none => simp [hg] at h
            | some s =>
              cases hp : parseFloatD s with
              | none => simp [hg, hp] at h
              | some q =>
                by_cases hq : gtEps q
                · simp only [hg, hp, hq, if_true] at h
                  by_cases hw2 : cfg.destOk (st.k + 2)
                  · simp only [hw2, if_true] at h
                    cases h
                    simp [hinv]
                  · simp [hw2] at h
                · simp only [hg, hp, hq, if_false, Bool.false_eq_true] at h
                  cases h
                  simp [hinv]
          · simp [hroll, hc, hcl, hw] at h
        · simp [hroll, hc, hcl] at h
    | none =>
        by_cases hw : cfg.destOk st.k
        · simp only [hroll, if_true, hc, hw] at h
          cases hg : r[5]? with
          | none => simp [hg] at h
          | some s =>
            cases hp : parseFloatD s with
            | none => simp [hg, hp] at h
            | some q =>
              by_cases hq : gtEps q
              · simp only [hg, hp, hq, if_true] at h
                by_cases hw2 : cfg.destOk (st.k + 1)
                · simp only [hw2, if_true] at h
                  cases h
                  simpa using hinv
                · simp [hw2] at h
              · simp only [hg, hp, hq, if_false, Bool.false_eq_true] at h
                cases h
                simpa using hinv
        · simp [hroll, hc, hw] at h
  · simp only [hroll, if_false, Bool.false_eq_true] at h
    cases hg : r[5]? with
    | none => simp [hg] at h
    | some s =>
      cases hp : parseFloatD s with
      | none => simp [hg, hp] at h
      | some q =>
        by_cases hq : gtEps q
        · simp only [hg, hp, hq, if_true] at h
          by_cases hw : cfg.destOk st.k
          · simp only [hw, if_true] at h
            cases h
            simpa using hinv
          · simp [hw] at h
        · simp only [hg, hp, hq, if_false, Bool.false_eq_true] at h
          cases h
          exact hinv

/-- A halting loop iteration returns exactly the FileRef accumulator of
the state it leaves behind, that accumulator lists exactly the closed
parts, and no halt carries a read error (read errors exit elsewhere and
return `nil`). -/
theorem processRecord_files_halt {cfg : SplitCfg} {header : List String}
    {st : SplitState} {i : Nat} {r : List String} {ret : List File}
    {e : SplitError} {fin : SplitState}
    (hinv : st.files = st.closed.map partRef)
    (h : processRecord cfg header st i r = .halt ret e fin) :
    ret = fin.files ∧ fin.files = fin.closed.map partRef ∧
      e.isRead = false := by
  unfold processRecord at h
  rw [rollover_eq cfg header st i] at h
  by_cases hroll : rollCond cfg st
  · cases hc : st.cur with
    | some p =>
        by_cases hcl : cfg.destOk st.k
        · by_cases hw : cfg.destOk (st.k + 1)
          · simp only [hroll, if_true, hc, hcl, hw] at h
            cases hg : r[5]? with
            | none => simp [hg] at h
            | some s =>
              cases hp : parseFloatD s with
              | none =>
                  simp only [hg, hp, StepRes.halt.injEq] at h
                  obtain ⟨h1, h2, h3⟩ := h
                  rw [← h1, ← h2, ← h3]
                  simp [hinv, SplitError.isRead]
              | some q =>
                by_cases hq : gtEps q
                · simp only [hg, hp, hq, if_true] at h
                  by_cases hw2 : cfg.destOk (st.k + 2)
                  · simp [hw2] at h
                  · simp only [hw2, if_false, Bool.false_eq_true,
                      StepRes.halt.injEq] at h
                    obtain ⟨h1, h2, h3⟩ := h
                    rw [← h1, ← h2, ← h3]
                    simp [hinv, SplitError.isRead]
                · simp [hg, hp, hq] at h
          · simp only [hroll, if_true, hc, hcl, hw, if_false,
              Bool.false_eq_true, StepRes.halt.injEq] at h
            obtain ⟨h1, h2, h3⟩ := h
            rw [← h1, ← h2, ← h3]
            simp [hinv, SplitError.isRead]
        · simp only [hroll, if_true, hc, hcl, if_false, Bool.false_eq_true,
            StepRes.halt.injEq] at h
          obtain ⟨h1, h2, h3⟩ := h
          rw [← h1, ← h2, ← h3]
          simp [hinv, SplitError.isRead]
    | none =>
        by_cases hw : cfg.destOk st.k
        · simp only [hroll, if_true, hc, hw] at h
          cases hg : r[5]? with
          | none => simp [hg] at h
          | some s =>
            cases hp : parseFloatD s with
            | none =>
                simp only [hg, hp, StepRes.halt.injEq] at h
                obtain ⟨h1, h2, h3⟩ := h
                rw [← h1, ← h2, ← h3]
                simp [hinv, SplitError.isRead]
            | some q =>
              by_cases hq : gtEps q
              · simp only [hg, hp, hq, if_true] at h
                by_cases hw2 : cfg.destOk (st.k + 1)
                · simp [hw2] at h
                · simp only [hw2, if_false, Bool.false_eq_true,
                    StepRes.halt.injEq] at h
                  obtain ⟨h1, h2, h3⟩ := h
                  rw [← h1, ← h2, ← h3]
                  simp [hinv, SplitError.isRead]
              · simp [hg, hp, hq] at h
        · simp only [hroll, if_true, hc, hw, if_false, Bool.false_eq_true,
            StepRes.halt.injEq] at h
          obtain ⟨h1, h2, h3⟩ := h
          rw [← h1, ← h2, ← h3]
          simp [hinv, SplitError.isRead]
  · simp only [hroll, if_false, Bool.false_eq_true] at h
    cases hg : r[5]? with
    | none => simp [hg] at h
    | some s =>
      cases hp : parseFloatD s with
      | none =>
          simp only [hg, hp, StepRes.halt.injEq] at h
          obtain ⟨h1, h2, h3⟩ := h
          rw [← h1, ← h2, ← h3]
          simp [hinv, SplitError.isRead]
      | some q =>
        by_cases hq : gtEps q
        · simp only [hg, hp, hq, if_true] at h
          by_cases hw : cfg.destOk st.k
          · simp [hw] at h
          · simp only [hw, if_false, Bool.false_eq_true,
              StepRes.halt.injEq] at h
            obtain ⟨h1, h2, h3⟩ := h
            rw [← h1, ← h2, ← h3]
            simp [hinv, SplitError.isRead]
        · simp [hg, hp, hq] at h

/-- Loop form: a failed loop returns `nil` exactly on a read error, and
otherwise returns the FileRef accumulator of its final state, which
lists exactly the parts closed so far. -/
theorem splitLoop_failed_ret {cfg : SplitCfg} {header : List String} :
    ∀ (evs : List ReadEvent) (i : Nat) (st : SplitState) (ret : List File)
      (e : SplitError) (fin : SplitState),
      st.files = st.closed.map partRef →
      splitLoop cfg header evs i st = .failed ret e fin →
      (e.isRead = true → ret = []) ∧
      (e.isRead = false →
        ret = fin.files ∧ fin.files = fin.closed.map partRef)
  | [], i, st, ret, e, fin, hinv, h => by
      unfold splitLoop at h
      cases hc : st.cur with
      | some p =>
          by_cases hcl : cfg.destOk st.k
          · simp [hc, hcl] at h
          · simp [hc, hcl] at h
      | none => simp [hc] at h
  | .fail msg :: rest, i, st, ret, e, fin, hinv, h => by
      simp only [splitLoop, SplitResult.failed.injEq] at h
      obtain ⟨h1, h2, h3⟩ := h
      constructor
      · intro _
        rw [← h1]
      · intro hco
        rw [← h2] at hco
        simp [SplitError.isRead] at hco
  | .row r :: rest, i, st, ret, e, fin, hinv, h => by
      unfold splitLoop at h
      cases hpr : processRecord cfg header st i r with
      | next st1 =>
          simp only [hpr] at h
          exact splitLoop_failed_ret rest (i + 1) st1 ret e fin
            (processRecord_files_next hinv hpr) h
      | halt ret1 e1 fin1 =>
          simp only [hpr, SplitResult.failed.injEq] at h
          obtain ⟨h1, h2, h3⟩ := h
          obtain ⟨hr1, hr2, hr3⟩ := processRecord_files_halt hinv hpr
          constructor
          · intro hco
            rw [← h2] at hco
            rw [hco] at hr3
            cases hr3
          · intro _
            rw [← h1, ← h3]
            exact ⟨hr1, hr2⟩
      | crash fin1 => simp [hpr] at h

/-- C4 (amended): every error return of `splitFile` other than a read
error carries exactly the FileRef accumulator — the refs of the parts
closed in prior iterations, so those are still reported; a record-read
error instead returns `nil`, discarding the accumulated refs from the
return value (the closed parts themselves are not rolled back). -/
theorem C4_error_return_values :
    ∀ (cfg : SplitCfg) (input : List ReadEvent) (ret : List File)
      (e : SplitError) (fin : SplitState),
      splitFile cfg input = .failed ret e fin →
      (e.isRead = true → ret = []) ∧
      (e.isRead = false →
        ret = fin.files ∧ fin.files = fin.closed.map partRef) := by
  intro cfg input ret e fin h
  cases input with
  | nil =>
      have h' : releaseReader (.failed [] (.readErr "EOF") initState) =
          .failed ret e fin := h
      simp only [releaseReader, SplitResult.failed.injEq] at h'
      obtain ⟨h1, h2, -⟩ := h'
      constructor
      · intro _
        rw [← h1]
      · intro hco
        rw [← h2] at hco
        simp [SplitError.isRead] at hco
  | cons ev rest =>
      cases ev with
      | fail msg =>
          have h' : releaseReader (.failed [] (.readErr msg) initState) =
              .failed ret e fin := h
          simp only [releaseReader, SplitResult.failed.injEq] at h'
          obtain ⟨h1, h2, -⟩ := h'
          constructor
          · intro _
            rw [← h1]
          · intro hco
            rw [← h2] at hco
            simp [SplitError.isRead] at hco
      | row header =>
          have h' : releaseReader (splitLoop cfg header rest 0 initState) =
              .failed ret e fin := h
          cases hres : splitLoop cfg header rest 0 initState with
          | done r f =>
              rw [hres] at h'
              simp [releaseReader] at h'
          | panicked f =>
              rw [hres] at h'
              simp [releaseReader] at h'
          | failed r e1 f =>
              rw [hres] at h'
              simp only [releaseReader, SplitResult.failed.injEq] at h'
              obtain ⟨h1, h2, h3⟩ := h'
              have hinv0 : initState.files = initState.closed.map partRef := by
                simp [initState]
              obtain ⟨ha, hb⟩ := splitLoop_failed_ret rest 0 initState r e1 f
                hinv0 hres
              constructor
              · intro hco
                rw [← h1]
                exact ha (h2 ▸ hco)
              · intro hco
                obtain ⟨hb1, hb2⟩ := hb (h2 ▸ hco)
                rw [← h1, ← h3]
                exact ⟨hb1, hb2⟩

/-- C4 counterexample: a record-read error after a part has been closed
and recorded returns `nil` — not the accumulated FileRefs, which the
final state still holds. -/
theorem C4_read_error_drops_accumulated :
    (splitFile ⟨"f4.csv", 100, fun _ => true⟩
        [.row ["a", "b", "c", "d", "e", "f"],
         .row ["xxxxxxxxxxxxxxxxxxxxxxxxxxxxxxxxxxxxxxxxxxxxxxxxxxxxx",
           "", "", "", "", "1"],
         .row ["xxxxxxxxxxxxxxxxxxxxxxxxxxxxxxxxxxxxxxxxxxxxxxxxxxxxx",
           "", "", "", "", "2"],
         .row ["xxxxxxxxxxxxxxxxxxxxxxxxxxxxxxxxxxxxxxxxxxxxxxxxxxxxx",
           "", "", "", "", "3"],
         .fail "io"]).errOf = some (.readErr "io") ∧
    (splitFile ⟨"f4.csv", 100, fun _ => true⟩
        [.row ["a", "b", "c", "d", "e", "f"],
         .row ["xxxxxxxxxxxxxxxxxxxxxxxxxxxxxxxxxxxxxxxxxxxxxxxxxxxxx",
           "", "", "", "", "1"],
         .row ["xxxxxxxxxxxxxxxxxxxxxxxxxxxxxxxxxxxxxxxxxxxxxxxxxxxxx",
           "", "", "", "", "2"],
         .row ["xxxxxxxxxxxxxxxxxxxxxxxxxxxxxxxxxxxxxxxxxxxxxxxxxxxxx",
           "", "", "", "", "3"],
         .fail "io"]).ret = [] ∧
    (splitFile ⟨"f4.csv", 100, fun _ => true⟩
        [.row ["a", "b", "c", "d", "e", "f"],
         .row ["xxxxxxxxxxxxxxxxxxxxxxxxxxxxxxxxxxxxxxxxxxxxxxxxxxxxx",
           "", "", "", "", "1"],
         .row ["xxxxxxxxxxxxxxxxxxxxxxxxxxxxxxxxxxxxxxxxxxxxxxxxxxxxx",
           "", "", "", "", "2"],
         .row ["xxxxxxxxxxxxxxxxxxxxxxxxxxxxxxxxxxxxxxxxxxxxxxxxxxxxx",
           "", "", "", "", "3"],
         .fail "io"]).fin.files =
      [⟨"cmrc-integrations", "f4.csv_part_000000.csv"⟩] :=
  ⟨by decide, by decide, by decide⟩

/-- Witness for C4's amended statement: a parse error after one part was
closed returns exactly that part's FileRef, in sync with the closed
parts. -/
theorem C4_error_return_values_witness :
    ([(⟨"cmrc-integrations", "f4w.csv_part_000000.csv"⟩ : File)] :
        List File) =
      (⟨6, [⟨"cmrc-integrations", "f4w.csv_part_000000.csv"⟩],
        [⟨"f4w.csv_part_000000.csv",
          [["a", "b", "c", "d", "e", "f"],
           ["xxxxxxxxxxxxxxxxxxxxxxxxxxxxxxxxxxxxxxxxxxxxxxxxxxxxx",
             "", "", "", "", "1"],
           ["xxxxxxxxxxxxxxxxxxxxxxxxxxxxxxxxxxxxxxxxxxxxxxxxxxxxx",
             "", "", "", "", "2"]]⟩],
        some ⟨"f4w.csv_part_000002.csv",
          [["a", "b", "c", "d", "e", "f"],
           ["xxxxxxxxxxxxxxxxxxxxxxxxxxxxxxxxxxxxxxxxxxxxxxxxxxxxx",
             "", "", "", "", "3"]]⟩,
        60, false⟩ : SplitState).files ∧
      (⟨6, [⟨"cmrc-integrations", "f4w.csv_part_000000.csv"⟩],
        [⟨"f4w.csv_part_000000.csv",
          [["a", "b", "c", "d", "e", "f"],
           ["xxxxxxxxxxxxxxxxxxxxxxxxxxxxxxxxxxxxxxxxxxxxxxxxxxxxx",
             "", "", "", "", "1"],
           ["xxxxxxxxxxxxxxxxxxxxxxxxxxxxxxxxxxxxxxxxxxxxxxxxxxxxx",
             "", "", "", "", "2"]]⟩],
        some ⟨"f4w.csv_part_000002.csv",
          [["a", "b", "c", "d", "e", "f"],
           ["xxxxxxxxxxxxxxxxxxxxxxxxxxxxxxxxxxxxxxxxxxxxxxxxxxxxx",
             "", "", "", "", "3"]]⟩,
        60, false⟩ : SplitState).files =
      (⟨6, [⟨"cmrc-integrations", "f4w.csv_part_000000.csv"⟩],
        [⟨"f4w.csv_part_000000.csv",
          [["a", "b", "c", "d", "e", "f"],
           ["xxxxxxxxxxxxxxxxxxxxxxxxxxxxxxxxxxxxxxxxxxxxxxxxxxxxx",
             "", "", "", "", "1"],
           ["xxxxxxxxxxxxxxxxxxxxxxxxxxxxxxxxxxxxxxxxxxxxxxxxxxxxx",
             "", "", "", "", "2"]]⟩],
        some ⟨"f4w.csv_part_000002.csv",
          [["a", "b", "c", "d", "e", "f"],
           ["xxxxxxxxxxxxxxxxxxxxxxxxxxxxxxxxxxxxxxxxxxxxxxxxxxxxx",
             "", "", "", "", "3"]]⟩,
        60, false⟩ : SplitState).closed.map partRef :=
  (C4_error_return_values ⟨"f4w.csv", 100, fun _ => true⟩
    [.row ["a", "b", "c", "d", "e", "f"],
     .row ["xxxxxxxxxxxxxxxxxxxxxxxxxxxxxxxxxxxxxxxxxxxxxxxxxxxxx",
       "", "", "", "", "1"],
     .row ["xxxxxxxxxxxxxxxxxxxxxxxxxxxxxxxxxxxxxxxxxxxxxxxxxxxxx",
       "", "", "", "", "2"],
     .row ["xxxxxxxxxxxxxxxxxxxxxxxxxxxxxxxxxxxxxxxxxxxxxxxxxxxxx",
       "", "", "", "", "3"],
     .row ["y", "", "", "", "", "zz"]]
    [⟨"cmrc-integrations", "f4w.csv_part_000000.csv"⟩]
    (.parseErr "zz")
    ⟨6, [⟨"cmrc-integrations", "f4w.csv_part_000000.csv"⟩],
     [⟨"f4w.csv_part_000000.csv",
       [["a", "b", "c", "d", "e", "f"],
        ["xxxxxxxxxxxxxxxxxxxxxxxxxxxxxxxxxxxxxxxxxxxxxxxxxxxxx",
          "", "", "", "", "1"],
        ["xxxxxxxxxxxxxxxxxxxxxxxxxxxxxxxxxxxxxxxxxxxxxxxxxxxxx",
          "", "", "", "", "2"]]⟩],
     some ⟨"f4w.csv_part_000002.csv",
       [["a", "b", "c", "d", "e", "f"],
        ["xxxxxxxxxxxxxxxxxxxxxxxxxxxxxxxxxxxxxxxxxxxxxxxxxxxxx",
          "", "", "", "", "3"]]⟩,
     60, false⟩ (by decide)).2 (by decide)

/-- One run of the part-ingestion loop of `main` (lines 259–267): the
`filesExecs[i]` slice — allocated with one empty string per part and
filled left to right with execution ids — plus, when some ingestion
fails, the failing part and its error. -/
def ingestParts (ingest : File → Except String String) :
    List File → List String × Option (File × String)
  | [] => ([], none)
  | p :: rest =>
      match ingest p with
      | .ok s =>
          match ingestParts ingest rest with
          | (ids, e) => (s :: ids, e)
      | .error e => (List.replicate (rest.length + 1) "", some (p, e))

/-- Final report of `main`: the `filesExecs` table (`none` models a
`nil` slice that was never allocated), the loop variables `fi` and `fp`
at loop exit (the file and part named by the error diagnostic), and the
error that broke the loops, if any. -/
structure RunOutcome where
  filesExecs : List (Option (List String))
  fi : File
  fp : File
  err : Option String
deriving DecidableEq, Repr

/-- The nested file/part loops of `main` (lines 248–271), with the two
collaborator calls — `splitFile` against the object stores and
`ingestFile` against the HTTP clients — abstracted as function
parameters.  A split error aborts before `filesExecs[i]` is allocated;
an ingest error aborts after the slice is allocated, leaving empty
strings for the unprocessed parts; files after the break keep their
`nil` entries. -/
def orchestrate (split : File → List File × Option String)
    (ingest : File → Except String String) :
    List File → File → File → RunOutcome
  | [], fi, fp => ⟨[], fi, fp, none⟩
  | f :: rest, _fi, fp =>
      match split f with
      | (_, some e) =>
          ⟨none :: List.replicate rest.length none, f, fp, some e⟩
      | (parts, none) =>
          match ingestParts ingest parts with
          | (ids, some (p, e)) =>
              ⟨some ids :: List.replicate rest.length none, f, p, some e⟩
          | (ids, none) =>
              let out := orchestrate split ingest rest f (parts.getLastD fp)
              ⟨some ids :: out.filesExecs, out.fi, out.fp, out.err⟩

/-- Entry point of the orchestration: Go's `var fi, fp File` start as
zero values. -/
def mainLoop (split : File → List File × Option String)
    (ingest : File → Except String String) (files : List File) :
    RunOutcome :=
  orchestrate split ingest files ⟨"", ""⟩ ⟨"", ""⟩

/-- C5: when ingestion fails at part index 1 of file index 1 of three
discovered files, the run stops there: the report holds the execution
ids of all of file 0's parts, for file 1 only part 0's id (the remaining
slots of its slice stay empty strings), and a `nil` entry for file 2;
the failing file, the failing part and the error are reported. -/
theorem C5_abort_mid_file (f0 f1 f2 : File)
    (split : File → List File × Option String)
    (ingest : File → Except String String)
    (parts0 : List File) (ids0 : List String)
    (p10 p11 : File) (rest1 : List File) (id10 e : String)
    (h0 : split f0 = (parts0, none))
    (hI0 : ingestParts ingest parts0 = (ids0, none))
    (h1 : split f1 = (p10 :: p11 :: rest1, none))
    (h10 : ingest p10 = .ok id10)
    (h11 : ingest p11 = .error e) :
    mainLoop split ingest [f0, f1, f2] =
      ⟨[some ids0, some (id10 :: List.replicate (rest1.length + 1) ""),
        none], f1, p11, some e⟩ := by
  simp only [mainLoop, orchestrate, h0, hI0, h1, ingestParts, h10, h11]
  simp [List.replicate]

/-- Witness for C5 at concrete files, split results and ingest results:
two parts per file, with the second part of the second file failing. -/
theorem C5_abort_mid_file_witness :
    mainLoop
        (fun f => ([⟨"out", f.name ++ "0"⟩, ⟨"out", f.name ++ "1"⟩], none))
        (fun p => if p.name = "B1" then .error "boom"
          else .ok ("id" ++ p.name))
        [⟨"in", "A"⟩, ⟨"in", "B"⟩, ⟨"in", "C"⟩] =
      ⟨[some ["idA0", "idA1"], some ["idB0", ""], none],
       ⟨"in", "B"⟩, ⟨"out", "B1"⟩, some "boom"⟩ :=
  C5_abort_mid_file ⟨"in", "A"⟩ ⟨"in", "B"⟩ ⟨"in", "C"⟩
    (fun f => ([⟨"out", f.name ++ "0"⟩, ⟨"out", f.name ++ "1"⟩], none))
    (fun p => if p.name = "B1" then .error "boom" else .ok ("id" ++ p.name))
    [⟨"out", "A0"⟩, ⟨"out", "A1"⟩] ["idA0", "idA1"]
    ⟨"out", "B0"⟩ ⟨"out", "B1"⟩ [] "idB0" "boom"
    rfl rfl rfl rfl rfl

end SedaOrderData
